import Mathlib

/-!
# tbot: chat registry (`chatdb.go`) and broadcast cycle (`main.go`)

The SQLite table `CHAT(ID STRING PRIMARY KEY, CREATED DATETIME, ERRCOUNT INTEGER)`
is embedded as a list of rows.  Every method of `ChatDB` runs one SQL statement;
the statement can fail at the stage where the Go code checks an error
(`Prepare`, `Query`/`Exec`, `Scan`), and a failed statement leaves the table as
it was.  Which stage fails is an explicit argument (`Fault`), so the error
branches of the source are part of the embedding.

Column `ID` is compared by string equality, which is what `WHERE ID = ?` does for
the ids the bot stores (chat ids printed with `%d`).  `row.Next()` is taken to tell
whether a further row exists.  Go `int` is taken as 64 bits wide: `errcnt+1` wraps
(`wrapInt`).  Log output is not modelled.
-/

namespace Tbot

/-- One row of table `CHAT`. -/
structure Row where
  id : String
  created : Nat
  errcount : Int
  deriving DecidableEq, Repr

/-- Contents of table `CHAT`. -/
abbrev Table := List Row

/-- Errors returned by the `ChatDB` methods. -/
inductive DbError where
  /-- An error handed up from `database/sql` (`Prepare`, `Query`, `Exec`, `Scan`). -/
  | storage
  /-- The insert hit the `PRIMARY KEY` constraint. -/
  | constraint
  /-- Value `errors.New(fmt.Sprintf("Chat ID %s not found.", chatId))`. -/
  | notFound (chatId : String)
  deriving DecidableEq, Repr

/-- Stage of a statement at which the store reports an error. -/
inductive Fault where
  | none
  | prepare
  /-- Stage `pstmt.Query` resp. `pstmt.Exec`. -/
  | run
  /-- Stage `row.Scan`, reached only when a row is delivered. -/
  | scan
  deriving DecidableEq, Repr

/-- Ids of all rows, in table order. -/
def ids (db : Table) : List String := db.map (fun r => r.id)

/-- `PRIMARY KEY` constraint of column `ID`. -/
def UniqueIds (db : Table) : Prop := (ids db).Nodup

instance (db : Table) : Decidable (UniqueIds db) := by
  unfold UniqueIds; infer_instance

/-- Two's-complement wrap of a Go `int` (64 bit). -/
def wrapInt (x : Int) : Int := (x + 2 ^ 63) % 2 ^ 64 - 2 ^ 63

/-- `ChatDB.isExistChat`: `SELECT ID FROM CHAT WHERE ID = ?`, then `row.Next()`;
an error of `Prepare` or `Query` yields `false`. -/
def isExistChat (f : Fault) (db : Table) (chatId : String) : Bool :=
  match f with
  | .prepare => false
  | .run => false
  | _ => db.any (fun r => r.id == chatId)

/-- Statement `INSERT INTO CHAT VALUES(?, ?, 0)`. -/
def insertChat (f : Fault) (db : Table) (chatId : String) (now : Nat) : Except DbError Table :=
  match f with
  | .prepare => .error .storage
  | .run => .error .storage
  | _ =>
    if db.any (fun r => r.id == chatId) then .error .constraint
    else .ok (db ++ [{ id := chatId, created := now, errcount := 0 }])

/-- `ChatDB.AddChat`; `fExist` is the fault of the existence query, `fInsert` that of
the insert, `now` the value of `time.Now()`. -/
def AddChat (fExist fInsert : Fault) (db : Table) (chatId : String) (now : Nat) :
    Except DbError Table :=
  if isExistChat fExist db chatId then .ok db
  else insertChat fInsert db chatId now

/-- `ChatDB.DelChat`: `DELETE FROM CHAT WHERE ID = ?`. -/
def DelChat (f : Fault) (db : Table) (chatId : String) : Except DbError Table :=
  match f with
  | .prepare => .error .storage
  | .run => .error .storage
  | _ => .ok (db.filter (fun r => !(r.id == chatId)))

/-- Row loop shared by `GetChatList` and `GetErrorChatList`: every delivered row is
scanned and appended; a `Scan` error returns `nil, rowE`. -/
def scanIds (f : Fault) (rows : List Row) : Except DbError (List String) :=
  match rows with
  | [] => .ok []
  | _ :: _ => if f = .scan then .error .storage else .ok (rows.map (fun r => r.id))

/-- `ChatDB.GetChatList`: `SELECT ID FROM CHAT`. -/
def GetChatList (f : Fault) (db : Table) : Except DbError (List String) :=
  match f with
  | .prepare => .error .storage
  | .run => .error .storage
  | _ => scanIds f db

/-- `ChatDB.GetErrorChatList`: `SELECT ID FROM CHAT WHERE ERRCOUNT > ?`. -/
def GetErrorChatList (f : Fault) (db : Table) (errCount : Int) : Except DbError (List String) :=
  match f with
  | .prepare => .error .storage
  | .run => .error .storage
  | _ => scanIds f (db.filter (fun r => decide (r.errcount > errCount)))

/-- `ChatDB.GetErrorCount`: `SELECT ERRCOUNT FROM CHAT WHERE ID = ?`; the Go value
`(-1, err)` is the `error` case here, the caller puts `-1` back. -/
def GetErrorCount (f : Fault) (db : Table) (chatId : String) : Except DbError Int :=
  match f with
  | .prepare => .error .storage
  | .run => .error .storage
  | _ =>
    match db.find? (fun r => r.id == chatId) with
    | some r => if f = .scan then .error .storage else .ok r.errcount
    | none => .error (.notFound chatId)

/-- `ChatDB.SetErrorCount`: `UPDATE CHAT SET ERRCOUNT = ? WHERE ID = ?`. -/
def SetErrorCount (f : Fault) (db : Table) (chatId : String) (count : Int) :
    Except DbError Table :=
  match f with
  | .prepare => .error .storage
  | .run => .error .storage
  | _ => .ok (db.map (fun r => if r.id == chatId then { r with errcount := count } else r))

/-- Table after a mutating call whose error result the caller drops. -/
def tableAfter (db : Table) (res : Except DbError Table) : Table :=
  match res with
  | .ok db' => db'
  | .error _ => db

/-- First result of `GetErrorCount` as the Go caller sees it: `-1` beside an error. -/
def countValue (res : Except DbError Int) : Int :=
  match res with
  | .ok c => c
  | .error _ => -1

/-- Everything outside the program that one call of `SendMessageToAll` meets:
the outcome of `bot.Send` per recipient and message (`true`: `senderr == nil`)
and the fault of every statement.  An id occurs once in the list a cycle works on
(`ID` is the primary key), so the outcomes are given per id. -/
structure Env where
  send : String → String → Bool
  listFault : Fault
  getFault : String → Fault
  setFault : String → Fault
  errListFault : Fault
  delFault : String → Fault

/-- All statements of the cycle run without error. -/
def Env.storageOk (env : Env) : Prop :=
  env.listFault = .none ∧ env.errListFault = .none ∧
    ∀ c, env.getFault c = .none ∧ env.setFault c = .none ∧ env.delFault c = .none

/-- Table and transport log while a cycle runs; `sent` holds the `bot.Send` calls
made so far as (recipient, message), oldest first. -/
structure World where
  db : Table
  sent : List (String × String)
  deriving DecidableEq, Repr

/-- Body of the send loop of `SendMessageToAll` for one `chat`. -/
def sendOne (env : Env) (msg : String) (w : World) (chat : String) : World :=
  let sent := w.sent ++ [(chat, msg)]
  if env.send chat msg then { db := w.db, sent := sent }
  else
    let errcnt := countValue (GetErrorCount (env.getFault chat) w.db chat)
    { db := tableAfter w.db (SetErrorCount (env.setFault chat) w.db chat (wrapInt (errcnt + 1))),
      sent := sent }

/-- Loop `for _, chat := range chats` of `SendMessageToAll`. -/
def sendLoop (env : Env) (msg : String) (w : World) (chats : List String) : World :=
  chats.foldl (sendOne env msg) w

/-- Loop `for _, errchat := range errchats` of `SendMessageToAll`. -/
def cleanupLoop (env : Env) (db : Table) (errchats : List String) : Table :=
  errchats.foldl (fun d errchat => tableAfter d (DelChat (env.delFault errchat) d errchat)) db

/-- Result of one call of `SendMessageToAll`: the returned error (`none` is `nil`),
the table and the transport log afterwards. -/
structure Outcome where
  err : Option DbError
  db : Table
  sent : List (String × String)
  deriving DecidableEq, Repr

/-- `SendMessageToAll(bot, db, msg)`. -/
def SendMessageToAll (env : Env) (msg : String) (db : Table) : Outcome :=
  match GetChatList env.listFault db with
  | .error e => { err := some e, db := db, sent := [] }
  | .ok chats =>
    let w := sendLoop env msg { db := db, sent := [] } chats
    match GetErrorChatList env.errListFault w.db 3 with
    | .error e => { err := some e, db := w.db, sent := w.sent }
    | .ok errchats => { err := none, db := cleanupLoop env w.db errchats, sent := w.sent }

/-- Environment without storage faults whose transport fails exactly for the
recipients listed in `failing`. -/
def Env.failingFor (failing : List String) : Env :=
  { send := fun c _ => !(failing.contains c)
    listFault := .none
    getFault := fun _ => .none
    setFault := fun _ => .none
    errListFault := .none
    delFault := fun _ => .none }

/-- Effect of the send loop on one row: a failed send stores the wrapped increment. -/
def bumpRow (env : Env) (msg : String) (r : Row) : Row :=
  if env.send r.id msg then r else { r with errcount := wrapInt (r.errcount + 1) }

/-- Effect of a whole fault-free cycle on the table. -/
def cycleTable (env : Env) (msg : String) (db : Table) : Table :=
  (db.map (bumpRow env msg)).filter (fun r => decide (r.errcount ≤ 3))

/-- Table whose only row holds the largest 64-bit counter. -/
def maxCountTable : Table := [⟨"A", 1, 2 ^ 63 - 1⟩]

/-- Environment in which `Prepare` fails for `SELECT ID FROM CHAT`. -/
def Env.listDown : Env :=
  { Env.failingFor [] with listFault := .prepare }

/-- Environment in which only the query of `GetErrorChatList` fails. -/
def Env.errListDown : Env :=
  { Env.failingFor [] with errListFault := .run }

/-- Environment in which every send fails and `Prepare` fails for every
`SELECT ERRCOUNT FROM CHAT WHERE ID = ?`. -/
def Env.readDown : Env :=
  { Env.failingFor [] with send := fun _ _ => false, getFault := fun _ => .prepare }

/-- Sample table: four recipients with counters 0, 3, 4 and 2. -/
def sampleTable : Table :=
  [⟨"A", 10, 0⟩, ⟨"B", 11, 3⟩, ⟨"C", 12, 4⟩, ⟨"D", 13, 2⟩]

/-- Table after a sequence of calls of `SendMessageToAll`, one per entry
(environment and message of that call), first entry first. -/
def runCycles : List (Env × String) → Table → Table
  | [], db => db
  | (env, msg) :: rest, db => runCycles rest (SendMessageToAll env msg db).db

/-- Table of the end-to-end scenario: "A" and "B" freshly added. -/
def freshTable : Table := [⟨"A", 1, 0⟩, ⟨"B", 2, 0⟩]

/-- Table in which "A" still carries a counter of 4 from before. -/
def staleTable : Table := [⟨"A", 1, 4⟩, ⟨"B", 2, 0⟩]

/-- Four cycles with message "hi" in which the transport fails for "B" only and no
statement fails. -/
def fourCycles : List (Env × String) := List.replicate 4 (Env.failingFor ["B"], "hi")

/-! ## Lemmas on the registry -/

theorem getChatList_none (db : Table) : GetChatList .none db = .ok (ids db) := by
  cases db <;> simp [GetChatList, scanIds, ids]

theorem getErrorChatList_none (db : Table) (t : Int) :
    GetErrorChatList .none db t
      = .ok (ids (db.filter (fun r => decide (r.errcount > t)))) := by
  unfold GetErrorChatList
  cases h : db.filter (fun r => decide (r.errcount > t)) <;> simp [scanIds, ids, h]

theorem find_of_mem {db : Table} (hu : UniqueIds db) {r : Row} (hr : r ∈ db) :
    db.find? (fun q => q.id == r.id) = some r := by
  induction db with
  | nil => cases hr
  | cons a t ih =>
    simp only [UniqueIds, ids, List.map_cons, List.nodup_cons] at hu
    rcases List.mem_cons.1 hr with rfl | h
    · simp [List.find?]
    · have hne : a.id ≠ r.id := by
        intro e
        exact hu.1 (e ▸ List.mem_map_of_mem (fun q : Row => q.id) h)
      have hb : (a.id == r.id) = false := by simpa using hne
      simp only [List.find?, hb]
      exact ih hu.2 h

theorem row_eq_of_id_eq {db : Table} (hu : UniqueIds db) {q r : Row}
    (hq : q ∈ db) (hr : r ∈ db) (h : q.id = r.id) : q = r := by
  have h1 := find_of_mem hu hq
  have h2 := find_of_mem hu hr
  rw [h] at h1
  exact Option.some.inj (h1.symm.trans h2)

theorem mem_ids {db : Table} {x : String} : x ∈ ids db ↔ ∃ r ∈ db, r.id = x := by
  simp [ids]

theorem getErrorCount_of_mem {db : Table} (hu : UniqueIds db) {r : Row} (hr : r ∈ db) :
    GetErrorCount .none db r.id = .ok r.errcount := by
  simp [GetErrorCount, find_of_mem hu hr]

theorem getErrorCount_of_not_mem {db : Table} {x : String} (hx : x ∉ ids db) :
    GetErrorCount .none db x = .error (.notFound x) := by
  have : db.find? (fun r => r.id == x) = none := by
    rw [List.find?_eq_none]
    intro r hr
    simp only [beq_iff_eq]
    intro e
    exact hx (mem_ids.2 ⟨r, hr, e⟩)
  simp [GetErrorCount, this]

/-! ## Lemmas on the send loop -/

theorem ids_setErrorCount (f : Fault) (db : Table) (c : String) (v : Int) :
    ids (tableAfter db (SetErrorCount f db c v)) = ids db := by
  cases f <;> simp only [SetErrorCount, tableAfter, ids, List.map_map] <;>
    · apply List.map_congr_left
      intro r _
      simp only [Function.comp]
      split <;> rfl

theorem sendOne_sent (env : Env) (msg : String) (w : World) (c : String) :
    (sendOne env msg w c).sent = w.sent ++ [(c, msg)] := by
  unfold sendOne
  split <;> rfl

theorem sendOne_ids (env : Env) (msg : String) (w : World) (c : String) :
    ids (sendOne env msg w c).db = ids w.db := by
  unfold sendOne
  split
  · rfl
  · exact ids_setErrorCount _ _ _ _

theorem sendLoop_sent (env : Env) (msg : String) (chats : List String) :
    ∀ w : World, (sendLoop env msg w chats).sent = w.sent ++ chats.map (fun c => (c, msg)) := by
  induction chats with
  | nil => intro w; simp [sendLoop]
  | cons c rest ih =>
    intro w
    have h := ih (sendOne env msg w c)
    simp only [sendLoop, List.foldl_cons] at h ⊢
    rw [h, sendOne_sent]
    simp

theorem sendLoop_ids (env : Env) (msg : String) (chats : List String) :
    ∀ w : World, ids (sendLoop env msg w chats).db = ids w.db := by
  induction chats with
  | nil => intro w; rfl
  | cons c rest ih =>
    intro w
    have h := ih (sendOne env msg w c)
    simp only [sendLoop, List.foldl_cons] at h ⊢
    rw [h, sendOne_ids]

/-- A row whose send succeeds is not touched by one loop step, whatever the faults. -/
theorem sendOne_keeps (env : Env) (msg : String) (w : World) (c : String) {r : Row}
    (hr : r ∈ w.db) (hs : env.send r.id msg = true) : r ∈ (sendOne env msg w c).db := by
  unfold sendOne
  split
  · exact hr
  · rename_i hc
    have hne : ¬ r.id = c := fun e => hc (e ▸ hs)
    cases hf : env.setFault c <;> simp only [SetErrorCount, tableAfter, hr] <;>
      · apply List.mem_map.2
        exact ⟨r, hr, by simp [hne]⟩

theorem sendLoop_keeps (env : Env) (msg : String) (chats : List String) {r : Row}
    (hs : env.send r.id msg = true) :
    ∀ w : World, r ∈ w.db → r ∈ (sendLoop env msg w chats).db := by
  induction chats with
  | nil => intro w hr; exact hr
  | cons c rest ih =>
    intro w hr
    have h := ih (sendOne env msg w c) (sendOne_keeps env msg w c hr hs)
    simpa only [sendLoop, List.foldl_cons] using h

theorem sendOne_db {env : Env} (hok : env.storageOk) (msg : String) (w : World) (c : String)
    (hu : UniqueIds w.db) :
    (sendOne env msg w c).db
      = w.db.map (fun r => if r.id = c then bumpRow env msg r else r) := by
  obtain ⟨_, _, hf⟩ := hok
  unfold sendOne
  split
  · rename_i hc
    symm
    conv_rhs => rw [← List.map_id w.db]
    apply List.map_congr_left
    intro r _
    by_cases e : r.id = c
    · simp [e, bumpRow, hc]
    · simp [e]
  · rename_i hc
    simp only [(hf c).1, (hf c).2.1, SetErrorCount, tableAfter]
    apply List.map_congr_left
    intro r hr
    by_cases e : r.id = c
    · subst e
      simp [getErrorCount_of_mem hu hr, countValue, bumpRow, hc]
    · simp [e]

theorem sendLoop_db {env : Env} (hok : env.storageOk) (msg : String) (chats : List String) :
    ∀ w : World, chats.Nodup → UniqueIds w.db →
      (sendLoop env msg w chats).db
        = w.db.map (fun r => if r.id ∈ chats then bumpRow env msg r else r) := by
  induction chats with
  | nil => intro w _ _; simp [sendLoop]
  | cons c rest ih =>
    intro w hn hu
    have hc : c ∉ rest := (List.nodup_cons.1 hn).1
    have hu1 : UniqueIds (sendOne env msg w c).db := by
      unfold UniqueIds; rw [sendOne_ids]; exact hu
    have h := ih (sendOne env msg w c) (List.nodup_cons.1 hn).2 hu1
    simp only [sendLoop, List.foldl_cons] at h ⊢
    rw [h, sendOne_db hok msg w c hu, List.map_map]
    apply List.map_congr_left
    intro r _
    have hid : (bumpRow env msg r).id = r.id := by
      unfold bumpRow; split <;> rfl
    by_cases e : r.id = c
    · subst e
      simp [hid, hc]
    · have e2 : ¬ c = r.id := fun x => e x.symm
      simp [e, e2]

/-! ## Lemmas on the cleanup loop -/

theorem cleanupLoop_sublist (env : Env) (errchats : List String) :
    ∀ db : Table, (cleanupLoop env db errchats).Sublist db := by
  induction errchats with
  | nil => intro db; exact List.Sublist.refl _
  | cons c rest ih =>
    intro db
    have h := ih (tableAfter db (DelChat (env.delFault c) db c))
    simp only [cleanupLoop, List.foldl_cons] at h ⊢
    refine h.trans ?_
    cases env.delFault c <;> simp [DelChat, tableAfter]

theorem cleanupLoop_keeps (env : Env) (errchats : List String) {r : Row}
    (hx : r.id ∉ errchats) : ∀ db : Table, r ∈ db → r ∈ cleanupLoop env db errchats := by
  induction errchats with
  | nil => intro db hr; exact hr
  | cons c rest ih =>
    intro db hr
    have hne : ¬ r.id = c := fun e => hx (e ▸ List.mem_cons_self _ _)
    have hrest : r.id ∉ rest := fun m => hx (List.mem_cons_of_mem _ m)
    have h := ih hrest (tableAfter db (DelChat (env.delFault c) db c))
      (by cases env.delFault c <;> simp [DelChat, tableAfter, hr, hne])
    simpa only [cleanupLoop, List.foldl_cons] using h

theorem cleanupLoop_db {env : Env} (hok : env.storageOk) (errchats : List String) :
    ∀ db : Table,
      cleanupLoop env db errchats = db.filter (fun r => !(errchats.contains r.id)) := by
  obtain ⟨_, _, hf⟩ := hok
  induction errchats with
  | nil => intro db; simp [cleanupLoop]
  | cons c rest ih =>
    intro db
    have h := ih (tableAfter db (DelChat (env.delFault c) db c))
    simp only [cleanupLoop, List.foldl_cons] at h ⊢
    rw [h, (hf c).2.2]
    simp only [DelChat, tableAfter, List.filter_filter]
    apply List.filter_congr
    intro r _
    by_cases e : r.id = c
    · simp [e]
    · have e2 : ¬ c = r.id := fun x => e x.symm
      simp [e, e2, List.contains_cons]

theorem uniqueIds_sublist {db db' : Table} (h : db'.Sublist db) (hu : UniqueIds db) :
    UniqueIds db' :=
  List.Nodup.sublist (h.map _) hu

theorem cleanup_filter {db : Table} (hu : UniqueIds db) :
    db.filter (fun r => !((ids (db.filter (fun q => decide (q.errcount > 3)))).contains r.id))
      = db.filter (fun r => decide (r.errcount ≤ 3)) := by
  apply List.filter_congr
  intro r hr
  by_cases h : r.errcount ≤ 3
  · have : r.id ∉ ids (db.filter (fun q => decide (q.errcount > 3))) := by
      intro hm
      obtain ⟨q, hq, hid⟩ := mem_ids.1 hm
      have hq' := List.mem_filter.1 hq
      have := row_eq_of_id_eq hu hq'.1 hr hid
      subst this
      have := of_decide_eq_true hq'.2
      omega
    simp [h, this]
  · have : r.id ∈ ids (db.filter (fun q => decide (q.errcount > 3))) :=
      mem_ids.2 ⟨r, List.mem_filter.2 ⟨hr, by simpa using h⟩, rfl⟩
    simp [h, this]

/-- Whole cycle without storage faults on a table with unique ids. -/
theorem sendMessageToAll_storageOk {env : Env} (hok : env.storageOk) (msg : String)
    {db : Table} (hu : UniqueIds db) :
    SendMessageToAll env msg db
      = { err := none, db := cycleTable env msg db,
          sent := (ids db).map (fun c => (c, msg)) } := by
  have hl := hok.1
  have he := hok.2.1
  have hdb : (sendLoop env msg { db := db, sent := [] } (ids db)).db
      = db.map (bumpRow env msg) := by
    rw [sendLoop_db hok msg (ids db) _ hu hu]
    apply List.map_congr_left
    intro r hr
    have : r.id ∈ ids db := mem_ids.2 ⟨r, hr, rfl⟩
    simp [this]
  have hu1 : UniqueIds (db.map (bumpRow env msg)) := by
    rw [← hdb]; unfold UniqueIds; rw [sendLoop_ids]; exact hu
  simp only [SendMessageToAll, hl, he, getChatList_none, getErrorChatList_none, hdb,
    cleanupLoop_db hok, cleanup_filter hu1, sendLoop_sent, cycleTable, List.nil_append]

/-! ## Results of the list queries -/

theorem getChatList_ok {f : Fault} {db : Table} {chats : List String}
    (h : GetChatList f db = .ok chats) : chats = ids db := by
  cases f <;> cases db <;> simp [GetChatList, scanIds, ids] at h ⊢ <;>
    first | exact h | exact h.symm

theorem getErrorChatList_ok {f : Fault} {db : Table} {t : Int} {l : List String}
    (h : GetErrorChatList f db t = .ok l) :
    l = ids (db.filter (fun r => decide (r.errcount > t))) := by
  unfold GetErrorChatList at h
  cases hrows : db.filter (fun r => decide (r.errcount > t)) <;>
    cases f <;> simp [scanIds, ids, hrows] at h ⊢ <;>
      first | exact h | exact h.symm

theorem wrapInt_of_range {x : Int} (h1 : -2 ^ 63 ≤ x) (h2 : x < 2 ^ 63) : wrapInt x = x := by
  unfold wrapInt
  omega

/-! ## Unavailable registry, send order, returned error -/

/-- C5: when `GetChatList` fails at the start of `SendMessageToAll`, the call returns
that error, no `bot.Send` is made and the table is left as it was. -/
theorem sendMessageToAll_list_failure (env : Env) (msg : String) (db : Table) (e : DbError)
    (h : GetChatList env.listFault db = .error e) :
    SendMessageToAll env msg db = { err := some e, db := db, sent := [] } := by
  simp [SendMessageToAll, h]

/-- C6: for whatever list `GetChatList` returns and whatever the outcomes of sends and
statements, `bot.Send` is called exactly once per id of the list, in list order, with
the given message. -/
theorem sendMessageToAll_sends_each_once (env : Env) (msg : String) (db : Table)
    (chats : List String) (h : GetChatList env.listFault db = .ok chats) :
    (SendMessageToAll env msg db).sent = chats.map (fun c => (c, msg)) := by
  simp only [SendMessageToAll, h]
  split <;> simp [sendLoop_sent]

/-- C7 (amended): `SendMessageToAll` returns error `e` exactly when `GetChatList`
fails with `e`, or `GetChatList` succeeds and `GetErrorChatList(3)` after the send loop
fails with `e`; failures of sends, counter reads and writes, and removals never
surface. -/
theorem sendMessageToAll_error_iff (env : Env) (msg : String) (db : Table) (e : DbError) :
    (SendMessageToAll env msg db).err = some e ↔
      (GetChatList env.listFault db = .error e ∨
        ∃ chats, GetChatList env.listFault db = .ok chats ∧
          GetErrorChatList env.errListFault
            (sendLoop env msg { db := db, sent := [] } chats).db 3 = .error e) := by
  unfold SendMessageToAll
  cases h1 : GetChatList env.listFault db with
  | error e1 => simp
  | ok chats =>
    simp only [false_or, exists_eq_left', reduceCtorEq, Except.ok.injEq]
    cases h2 : GetErrorChatList env.errListFault
        (sendLoop env msg { db := db, sent := [] } chats).db 3 with
    | error e2 => simp
    | ok l => simp

theorem sendMessageToAll_list_failure_witness :
    GetChatList Env.listDown.listFault sampleTable = .error .storage ∧
      SendMessageToAll Env.listDown "hi" sampleTable
        = { err := some .storage, db := sampleTable, sent := [] } :=
  ⟨rfl, sendMessageToAll_list_failure Env.listDown "hi" sampleTable .storage rfl⟩

theorem sendMessageToAll_sends_each_once_witness :
    GetChatList (Env.failingFor ["A", "C"]).listFault sampleTable = .ok ["A", "B", "C", "D"] ∧
      (SendMessageToAll (Env.failingFor ["A", "C"]) "hi" sampleTable).sent
        = [("A", "hi"), ("B", "hi"), ("C", "hi"), ("D", "hi")] :=
  ⟨rfl,
    sendMessageToAll_sends_each_once (Env.failingFor ["A", "C"]) "hi" sampleTable
      ["A", "B", "C", "D"] rfl⟩

/-- C7 (as stated) fails: the recipient list is fetched, every send succeeds, and the
call still returns an error because the query of `GetErrorChatList` failed. -/
theorem sendMessageToAll_error_after_list_ok :
    GetChatList Env.errListDown.listFault sampleTable = .ok ["A", "B", "C", "D"] ∧
      (SendMessageToAll Env.errListDown "hi" sampleTable).err = some .storage :=
  ⟨rfl, rfl⟩

/-! ## Registry operations -/

/-- C4: without a storage fault `GetErrorChatList(t)` returns exactly the ids of the
rows with `ERRCOUNT > t`, each once; with `t = 3` an id at 3 is left out and an id at
4 is returned. -/
theorem getErrorChatList_exact (db : Table) (t : Int) (hu : UniqueIds db) :
    ∃ l, GetErrorChatList .none db t = .ok l ∧ l.Nodup ∧
      (∀ x, x ∈ l ↔ ∃ r ∈ db, r.id = x ∧ r.errcount > t) ∧
      (∀ r ∈ db, (r.id ∈ l ↔ r.errcount > t)) ∧
      (t = 3 → ∀ r ∈ db, (r.errcount = 3 → r.id ∉ l) ∧ (r.errcount = 4 → r.id ∈ l)) := by
  have hmem : ∀ x, x ∈ ids (db.filter (fun r => decide (r.errcount > t)))
      ↔ ∃ r ∈ db, r.id = x ∧ r.errcount > t := by
    intro x
    rw [mem_ids]
    constructor
    · rintro ⟨r, hr, rfl⟩
      have := List.mem_filter.1 hr
      exact ⟨r, this.1, rfl, of_decide_eq_true this.2⟩
    · rintro ⟨r, hr, rfl, hgt⟩
      exact ⟨r, List.mem_filter.2 ⟨hr, decide_eq_true hgt⟩, rfl⟩
  have hrow : ∀ r ∈ db, (r.id ∈ ids (db.filter (fun r => decide (r.errcount > t)))
      ↔ r.errcount > t) := by
    intro r hr
    rw [hmem]
    constructor
    · rintro ⟨q, hq, hid, hgt⟩
      rw [← row_eq_of_id_eq hu hq hr hid]
      exact hgt
    · intro hgt
      exact ⟨r, hr, rfl, hgt⟩
  refine ⟨_, getErrorChatList_none db t, ?_, hmem, hrow, ?_⟩
  · exact uniqueIds_sublist (List.filter_sublist _) hu
  · intro ht r hr
    subst ht
    constructor
    · intro h3 hm
      have := (hrow r hr).1 hm
      omega
    · intro h4
      exact (hrow r hr).2 (by omega)

theorem getErrorChatList_exact_witness :
    UniqueIds sampleTable ∧ ∃ l, GetErrorChatList .none sampleTable 3 = .ok l ∧ l.Nodup ∧
      (∀ x, x ∈ l ↔ ∃ r ∈ sampleTable, r.id = x ∧ r.errcount > 3) ∧
      (∀ r ∈ sampleTable, (r.id ∈ l ↔ r.errcount > 3)) ∧
      ((3 : Int) = 3 → ∀ r ∈ sampleTable,
        (r.errcount = 3 → r.id ∉ l) ∧ (r.errcount = 4 → r.id ∈ l)) :=
  ⟨by decide, getErrorChatList_exact sampleTable 3 (by decide)⟩

theorem any_id_iff (db : Table) (x : String) :
    db.any (fun r => r.id == x) = true ↔ x ∈ ids db := by
  simp [ids, List.any_eq_true]

theorem rows_of_id_length {db : Table} (hu : UniqueIds db) {x : String} (hx : x ∈ ids db) :
    (db.filter (fun r => r.id == x)).length = 1 := by
  have h1 : List.count x (ids db) = 1 := List.count_eq_one_of_mem hu hx
  rw [← List.countP_eq_length_filter]
  rw [List.count, ids, List.countP_map] at h1
  exact h1

theorem addChat_present (f1 f2 : Fault) {db : Table} {x : String} (hx : x ∈ ids db)
    (now : Nat) : tableAfter db (AddChat f1 f2 db x now) = db := by
  have ha := (any_id_iff db x).2 hx
  unfold AddChat
  split
  · rfl
  · cases f2 <;> simp [insertChat, tableAfter, ha]

/-- C3: on a table with unique ids and without storage faults, two calls of
`AddChat(x)` in a row both return `nil`; afterwards `x` has exactly one row; the second
call leaves the table as the first one left it (under any fault as well); a row `x`
had before keeps `CREATED` and `ERRCOUNT`, a new row gets `now` of the first call and
counter 0; rows of other ids stay as they were. -/
theorem addChat_idempotent (db : Table) (x : String) (now1 now2 : Nat) (hu : UniqueIds db) :
    ∃ db1, AddChat .none .none db x now1 = .ok db1 ∧
      AddChat .none .none db1 x now2 = .ok db1 ∧
      (∀ f1 f2, tableAfter db1 (AddChat f1 f2 db1 x now2) = db1) ∧
      (db1.filter (fun r => r.id == x)).length = 1 ∧
      UniqueIds db1 ∧
      db1.filter (fun r => !(r.id == x)) = db.filter (fun r => !(r.id == x)) ∧
      (x ∈ ids db → db1 = db) ∧
      (x ∉ ids db → db1 = db ++ [{ id := x, created := now1, errcount := 0 }]) := by
  by_cases hx : x ∈ ids db
  · have ha := (any_id_iff db x).2 hx
    have hadd : ∀ now, AddChat .none .none db x now = .ok db := by
      intro now; simp [AddChat, isExistChat, ha]
    exact ⟨db, hadd now1, hadd now2, fun f1 f2 => addChat_present f1 f2 hx now2,
      rows_of_id_length hu hx, hu, rfl, fun _ => rfl, fun h => absurd hx h⟩
  · have ha : db.any (fun r => r.id == x) = false := by
      cases h : db.any (fun r => r.id == x)
      · rfl
      · exact absurd ((any_id_iff db x).1 h) hx
    have hx1 : x ∈ ids (db ++ [{ id := x, created := now1, errcount := 0 }]) := by
      simp [ids]
    have hu1 : UniqueIds (db ++ [{ id := x, created := now1, errcount := 0 }]) := by
      unfold UniqueIds at hu ⊢
      simp only [ids, List.map_append, List.map_cons, List.map_nil] at hx hu ⊢
      rw [List.nodup_append]
      refine ⟨hu, List.nodup_singleton x, ?_⟩
      intro a ha1 ha2
      rw [List.mem_singleton] at ha2
      subst ha2
      exact hx ha1
    have hfil : ∀ r ∈ db, (!(r.id == x)) = true := by
      intro r hr
      have : r.id ≠ x := fun e => hx (mem_ids.2 ⟨r, hr, e⟩)
      simpa using this
    refine ⟨db ++ [{ id := x, created := now1, errcount := 0 }], ?_, ?_,
      fun f1 f2 => addChat_present f1 f2 hx1 now2, rows_of_id_length hu1 hx1, hu1, ?_,
      fun h => absurd h hx, fun _ => rfl⟩
    · simp [AddChat, isExistChat, insertChat, ha]
    · simp [AddChat, isExistChat, (any_id_iff _ x).2 hx1]
    · simp [List.filter_append]

theorem addChat_idempotent_witness :
    UniqueIds sampleTable ∧
    ∃ db1, AddChat .none .none sampleTable "B" 20 = .ok db1 ∧
      AddChat .none .none db1 "B" 21 = .ok db1 ∧
      (∀ f1 f2, tableAfter db1 (AddChat f1 f2 db1 "B" 21) = db1) ∧
      (db1.filter (fun r => r.id == "B")).length = 1 ∧
      UniqueIds db1 ∧
      db1.filter (fun r => !(r.id == "B")) = sampleTable.filter (fun r => !(r.id == "B")) ∧
      ("B" ∈ ids sampleTable → db1 = sampleTable) ∧
      ("B" ∉ ids sampleTable →
        db1 = sampleTable ++ [{ id := "B", created := 20, errcount := 0 }]) :=
  ⟨by decide, addChat_idempotent sampleTable "B" 20 21 (by decide)⟩

/-! ## Counter update after a failed send -/

/-- C8 (code at the failing input): the send to "B" fails and the read of its counter
fails; the counter of "B", 2 before, is written as 0, not as 1. -/
theorem sendMessageToAll_read_failure_writes_zero :
    Env.readDown.send "B" "hi" = false ∧
      GetErrorCount (Env.readDown.getFault "B") [⟨"B", 7, 2⟩] "B" = .error .storage ∧
      SendMessageToAll Env.readDown "hi" [⟨"B", 7, 2⟩]
        = { err := none, db := [⟨"B", 7, 0⟩], sent := [("B", "hi")] } :=
  ⟨rfl, rfl, by decide⟩

/-! ## One cycle: what stays and what goes -/

theorem sendLoop_all {env : Env} (hok : env.storageOk) (msg : String) {db : Table}
    (hu : UniqueIds db) :
    (sendLoop env msg { db := db, sent := [] } (ids db)).db = db.map (bumpRow env msg) := by
  rw [sendLoop_db hok msg (ids db) _ hu hu]
  apply List.map_congr_left
  intro r hr
  have : r.id ∈ ids db := mem_ids.2 ⟨r, hr, rfl⟩
  simp [this]

theorem bumpRow_id (env : Env) (msg : String) (r : Row) : (bumpRow env msg r).id = r.id := by
  unfold bumpRow; split <;> rfl

theorem ids_map_bumpRow (env : Env) (msg : String) (db : Table) :
    ids (db.map (bumpRow env msg)) = ids db := by
  simp only [ids, List.map_map]
  apply List.map_congr_left
  intro r _
  exact bumpRow_id env msg r

theorem uniqueIds_cycleTable (env : Env) (msg : String) {db : Table} (hu : UniqueIds db) :
    UniqueIds (cycleTable env msg db) := by
  apply uniqueIds_sublist (List.filter_sublist _)
  unfold UniqueIds
  rw [ids_map_bumpRow]
  exact hu

theorem mem_cycleTable {env : Env} {msg : String} {db : Table} {r : Row} :
    r ∈ cycleTable env msg db ↔ (∃ q ∈ db, bumpRow env msg q = r) ∧ r.errcount ≤ 3 := by
  simp [cycleTable, List.mem_filter, List.mem_map]

/-- A row at or below the threshold whose send succeeds is in the table after the
cycle, under every pattern of faults. -/
theorem row_kept_of_send_ok (env : Env) (msg : String) {db : Table} {r : Row}
    (hu : UniqueIds db) (hr : r ∈ db) (hle : r.errcount ≤ 3)
    (hs : env.send r.id msg = true) :
    r ∈ (SendMessageToAll env msg db).db ∧ UniqueIds (SendMessageToAll env msg db).db := by
  cases h1 : GetChatList env.listFault db with
  | error e1 =>
    simp only [SendMessageToAll, h1]
    exact ⟨hr, hu⟩
  | ok chats =>
    have hrw := sendLoop_keeps env msg chats hs { db := db, sent := [] } hr
    have huw : UniqueIds (sendLoop env msg { db := db, sent := [] } chats).db := by
      unfold UniqueIds; rw [sendLoop_ids]; exact hu
    cases h2 : GetErrorChatList env.errListFault
        (sendLoop env msg { db := db, sent := [] } chats).db 3 with
    | error e2 =>
      simp only [SendMessageToAll, h1, h2]
      exact ⟨hrw, huw⟩
    | ok l =>
      have hl := getErrorChatList_ok h2
      have hnot : r.id ∉ l := by
        rw [hl]
        intro hm
        obtain ⟨q, hq, hid⟩ := mem_ids.1 hm
        have hq' := List.mem_filter.1 hq
        have := row_eq_of_id_eq huw hq'.1 hrw hid
        subst this
        have := of_decide_eq_true hq'.2
        omega
      simp only [SendMessageToAll, h1, h2]
      exact ⟨cleanupLoop_keeps env l hnot _ hrw,
        uniqueIds_sublist (cleanupLoop_sublist env l _) huw⟩

/-- C2 (as stated) fails: "D" stands at 2, its send succeeds, no statement fails, and
its counter after the cycle is 2, not 0. -/
theorem success_does_not_reset :
    (Env.failingFor []).send "D" "hi" = true ∧
      GetErrorCount .none sampleTable "D" = .ok 2 ∧
      GetErrorCount .none (SendMessageToAll (Env.failingFor []) "hi" sampleTable).db "D"
        = .ok 2 ∧
      GetErrorCount .none (SendMessageToAll (Env.failingFor []) "hi" sampleTable).db "D"
        ≠ .ok 0 :=
  ⟨rfl, rfl, rfl, by simp [show GetErrorCount .none
      (SendMessageToAll (Env.failingFor []) "hi" sampleTable).db "D" = .ok 2 from rfl]⟩

/-- C2 (amended): a registered recipient whose counter is at most 3 before a cycle and
whose send succeeds in that cycle keeps its row, and its counter right after the cycle
is the one it had before; this holds under every pattern of faults. -/
theorem success_keeps_counter (env : Env) (msg : String) (db : Table) (r : Row)
    (hu : UniqueIds db) (hr : r ∈ db) (hle : r.errcount ≤ 3)
    (hs : env.send r.id msg = true) :
    r ∈ (SendMessageToAll env msg db).db ∧
      GetErrorCount .none (SendMessageToAll env msg db).db r.id = .ok r.errcount := by
  obtain ⟨hm, hu'⟩ := row_kept_of_send_ok env msg hu hr hle hs
  exact ⟨hm, getErrorCount_of_mem hu' hm⟩

theorem success_keeps_counter_witness :
    UniqueIds sampleTable ∧ (⟨"D", 13, 2⟩ : Row) ∈ sampleTable ∧ (2 : Int) ≤ 3 ∧
      (Env.failingFor ["A"]).send "D" "hi" = true ∧
      (⟨"D", 13, 2⟩ : Row) ∈ (SendMessageToAll (Env.failingFor ["A"]) "hi" sampleTable).db ∧
      GetErrorCount .none (SendMessageToAll (Env.failingFor ["A"]) "hi" sampleTable).db "D"
        = .ok 2 :=
  ⟨by decide, by decide, by decide, rfl,
    success_keeps_counter (Env.failingFor ["A"]) "hi" sampleTable ⟨"D", 13, 2⟩
      (by decide) (by decide) (by decide) rfl⟩

/-- C9: without storage faults, on a table with unique ids, `SendMessageToAll` returns
`nil`; no row left has a counter above 3; the rows left are rows of the table as the
send loop left it; and every recipient that is gone had a counter above 3 when the
send loop ended. -/
theorem sendMessageToAll_evicts_over_threshold (env : Env) (msg : String) (db : Table)
    (hok : env.storageOk) (hu : UniqueIds db) :
    (SendMessageToAll env msg db).err = none ∧
      (∀ r ∈ (SendMessageToAll env msg db).db, r.errcount ≤ 3) ∧
      (∀ r ∈ (SendMessageToAll env msg db).db,
        r ∈ (sendLoop env msg { db := db, sent := [] } (ids db)).db) ∧
      (∀ r ∈ (sendLoop env msg { db := db, sent := [] } (ids db)).db,
        r.id ∉ ids (SendMessageToAll env msg db).db → r.errcount > 3) := by
  rw [sendMessageToAll_storageOk hok msg hu, sendLoop_all hok msg hu]
  refine ⟨rfl, ?_, ?_, ?_⟩
  · intro r hr
    exact (mem_cycleTable.1 hr).2
  · intro r hr
    obtain ⟨⟨q, hq, rfl⟩, _⟩ := mem_cycleTable.1 hr
    exact List.mem_map_of_mem _ hq
  · intro r hr hgone
    by_contra hle
    obtain ⟨q, hq, rfl⟩ := List.mem_map.1 hr
    exact hgone (mem_ids.2 ⟨_, mem_cycleTable.2 ⟨⟨q, hq, rfl⟩, by omega⟩, rfl⟩)

theorem sendMessageToAll_evicts_over_threshold_witness :
    (Env.failingFor ["B"]).storageOk ∧ UniqueIds sampleTable ∧
      (SendMessageToAll (Env.failingFor ["B"]) "hi" sampleTable).err = none ∧
      (∀ r ∈ (SendMessageToAll (Env.failingFor ["B"]) "hi" sampleTable).db, r.errcount ≤ 3) ∧
      (∀ r ∈ (SendMessageToAll (Env.failingFor ["B"]) "hi" sampleTable).db,
        r ∈ (sendLoop (Env.failingFor ["B"]) "hi" { db := sampleTable, sent := [] }
          (ids sampleTable)).db) ∧
      (∀ r ∈ (sendLoop (Env.failingFor ["B"]) "hi" { db := sampleTable, sent := [] }
          (ids sampleTable)).db,
        r.id ∉ ids (SendMessageToAll (Env.failingFor ["B"]) "hi" sampleTable).db →
          r.errcount > 3) :=
  ⟨⟨rfl, rfl, fun _ => ⟨rfl, rfl, rfl⟩⟩, by decide,
    sendMessageToAll_evicts_over_threshold (Env.failingFor ["B"]) "hi" sampleTable
      ⟨rfl, rfl, fun _ => ⟨rfl, rfl, rfl⟩⟩ (by decide)⟩

/-- C10 (as stated) fails: "A" holds counter 2^63 - 1, its send fails and no
statement fails; counter + 1 exceeds 3, yet "A" stays in the table, with the
wrapped counter -2^63. -/
theorem max_counter_wraps_and_stays :
    UniqueIds maxCountTable ∧ (Env.failingFor ["A"]).send "A" "hi" = false ∧
      GetErrorCount .none maxCountTable "A" = .ok (2 ^ 63 - 1) ∧
      (3 : Int) < (2 ^ 63 - 1) + 1 ∧
      (SendMessageToAll (Env.failingFor ["A"]) "hi" maxCountTable).db
        = [⟨"A", 1, -2 ^ 63⟩] :=
  ⟨by decide, rfl, rfl, by decide, by decide⟩

/-- C10 (amended): without storage faults, on a table with unique ids, the table after
`SendMessageToAll` is the old table, in order, with the counter of every recipient
whose send failed replaced by the 64-bit wrap of counter + 1 and every row whose
counter then exceeds 3 taken out; a row is in the new table exactly when it is an old
row with its id and `CREATED`, counter `c'` and `c' ≤ 3`.  For a failed send with a
counter below 2^63 - 1 the new counter is counter + 1; a row whose send succeeded
keeps its counter when that is at most 3 and is gone when it exceeds 3; no id is
added. -/
theorem sendMessageToAll_exact_effect (env : Env) (msg : String) (db : Table)
    (hok : env.storageOk) (hu : UniqueIds db) :
    (SendMessageToAll env msg db).db
        = (db.map (fun r =>
            if env.send r.id msg then r
            else { r with errcount := wrapInt (r.errcount + 1) })).filter
            (fun r => decide (r.errcount ≤ 3)) ∧
      (∀ r', r' ∈ (SendMessageToAll env msg db).db ↔
        ∃ r ∈ db, r'.id = r.id ∧ r'.created = r.created ∧
          r'.errcount
            = (if env.send r.id msg then r.errcount else wrapInt (r.errcount + 1)) ∧
          r'.errcount ≤ 3) ∧
      (∀ r ∈ db, env.send r.id msg = false → -2 ^ 63 ≤ r.errcount + 1 →
        r.errcount + 1 < 2 ^ 63 →
        (r.errcount + 1 ≤ 3 →
          ({ r with errcount := r.errcount + 1 } : Row) ∈ (SendMessageToAll env msg db).db) ∧
        (3 < r.errcount + 1 → r.id ∉ ids (SendMessageToAll env msg db).db)) ∧
      (∀ r ∈ db, env.send r.id msg = true →
        (r.errcount ≤ 3 → r ∈ (SendMessageToAll env msg db).db) ∧
        (3 < r.errcount → r.id ∉ ids (SendMessageToAll env msg db).db)) ∧
      (∀ x ∈ ids (SendMessageToAll env msg db).db, x ∈ ids db) := by
  have hdb : (SendMessageToAll env msg db).db = cycleTable env msg db := by
    rw [sendMessageToAll_storageOk hok msg hu]
  have hgone : ∀ r ∈ db, 3 < (bumpRow env msg r).errcount →
      r.id ∉ ids (cycleTable env msg db) := by
    intro r hr hgt hm
    obtain ⟨x, hx, hid⟩ := mem_ids.1 hm
    obtain ⟨⟨q, hq, hbq⟩, hle⟩ := mem_cycleTable.1 hx
    have hqid : q.id = r.id := by rw [← hid, ← hbq, bumpRow_id]
    have hqr := row_eq_of_id_eq hu hq hr hqid
    subst hqr
    rw [← hbq] at hle
    omega
  rw [hdb]
  refine ⟨rfl, ?_, ?_, ?_, ?_⟩
  · intro r'
    rw [mem_cycleTable]
    constructor
    · rintro ⟨⟨r, hr, rfl⟩, hle⟩
      refine ⟨r, hr, ?_, ?_, ?_, hle⟩ <;> unfold bumpRow <;> split <;> rfl
    · rintro ⟨r, hr, h1, h2, h3, h4⟩
      refine ⟨⟨r, hr, ?_⟩, h4⟩
      cases r' with
      | mk i c n =>
        simp only at h1 h2 h3
        subst h1 h2
        unfold bumpRow
        split
        · rename_i hs
          rw [if_pos hs] at h3
          rw [h3]
        · rename_i hs
          rw [if_neg hs] at h3
          rw [h3]
  · intro r hr hf hlo hhi
    have hb : bumpRow env msg r = { r with errcount := r.errcount + 1 } := by
      unfold bumpRow
      rw [wrapInt_of_range hlo hhi]
      simp [hf]
    constructor
    · intro hle
      exact mem_cycleTable.2 ⟨⟨r, hr, hb⟩, hle⟩
    · intro hgt
      exact hgone r hr (by rw [hb]; exact hgt)
  · intro r hr hs
    have hb : bumpRow env msg r = r := by
      unfold bumpRow
      simp [hs]
    constructor
    · intro hle
      exact mem_cycleTable.2 ⟨⟨r, hr, hb⟩, hle⟩
    · intro hgt
      exact hgone r hr (by rw [hb]; exact hgt)
  · intro x hx
    obtain ⟨r', hr', hid⟩ := mem_ids.1 hx
    obtain ⟨⟨q, hq, hbq⟩, _⟩ := mem_cycleTable.1 hr'
    exact mem_ids.2 ⟨q, hq, by rw [← hid, ← hbq, bumpRow_id]⟩

theorem sendMessageToAll_exact_effect_witness :
    (Env.failingFor ["B", "D"]).storageOk ∧ UniqueIds sampleTable ∧
      (SendMessageToAll (Env.failingFor ["B", "D"]) "hi" sampleTable).db
        = [⟨"A", 10, 0⟩, ⟨"D", 13, 3⟩] :=
  ⟨⟨rfl, rfl, fun _ => ⟨rfl, rfl, rfl⟩⟩, by decide,
    (sendMessageToAll_exact_effect (Env.failingFor ["B", "D"]) "hi" sampleTable
      ⟨rfl, rfl, fun _ => ⟨rfl, rfl, rfl⟩⟩ (by decide)).1.trans (by decide)⟩

/-! ## Several cycles -/

theorem cycle_fail_row {env : Env} (hok : env.storageOk) (msg : String) {db : Table}
    (hu : UniqueIds db) {r : Row} (hr : r ∈ db) (hf : env.send r.id msg = false)
    (h0 : 0 ≤ r.errcount) (h2 : r.errcount ≤ 2) :
    ({ r with errcount := r.errcount + 1 } : Row) ∈ (SendMessageToAll env msg db).db := by
  rw [sendMessageToAll_storageOk hok msg hu]
  refine mem_cycleTable.2 ⟨⟨r, hr, ?_⟩, by simp only; omega⟩
  unfold bumpRow
  rw [wrapInt_of_range (by omega) (by omega)]
  simp [hf]

theorem cycle_fail_evict {env : Env} (hok : env.storageOk) (msg : String) {db : Table}
    (hu : UniqueIds db) {r : Row} (hr : r ∈ db) (hf : env.send r.id msg = false)
    (h3 : r.errcount = 3) : r.id ∉ ids (SendMessageToAll env msg db).db := by
  rw [sendMessageToAll_storageOk hok msg hu]
  intro hm
  obtain ⟨x, hx, hid⟩ := mem_ids.1 hm
  obtain ⟨⟨q, hq, hbq⟩, hle⟩ := mem_cycleTable.1 hx
  have hqid : q.id = r.id := by rw [← hid, ← hbq, bumpRow_id]
  have hqr := row_eq_of_id_eq hu hq hr hqid
  subst hqr
  rw [← hbq] at hle
  unfold bumpRow at hle
  rw [wrapInt_of_range (by omega) (by omega)] at hle
  simp only [hf, Bool.false_eq_true, if_false] at hle
  omega

theorem runCycles_unique (cycles : List (Env × String)) :
    ∀ db : Table, UniqueIds db → (∀ p ∈ cycles, p.1.storageOk) →
      UniqueIds (runCycles cycles db) := by
  induction cycles with
  | nil => intro db hu _; exact hu
  | cons p rest ih =>
    intro db hu hp
    obtain ⟨env, msg⟩ := p
    have hok : env.storageOk := hp (env, msg) (List.mem_cons_self _ _)
    simp only [runCycles]
    apply ih _ _ (fun q hq => hp q (List.mem_cons_of_mem _ hq))
    rw [sendMessageToAll_storageOk hok msg hu]
    exact uniqueIds_cycleTable env msg hu

theorem runCycles_fail_row (cycles : List (Env × String)) :
    ∀ (db : Table) (r : Row), UniqueIds db → r ∈ db → 0 ≤ r.errcount →
      r.errcount + cycles.length ≤ 3 →
      (∀ p ∈ cycles, p.1.storageOk ∧ p.1.send r.id p.2 = false) →
      ({ r with errcount := r.errcount + cycles.length } : Row) ∈ runCycles cycles db := by
  induction cycles with
  | nil =>
    intro db r _ hr _ _ _
    simpa [runCycles] using hr
  | cons p rest ih =>
    intro db r hu hr h0 hlen hp
    obtain ⟨env, msg⟩ := p
    obtain ⟨hok, hf⟩ := hp (env, msg) (List.mem_cons_self _ _)
    simp only [List.length_cons, Nat.cast_add, Nat.cast_one] at hlen
    have hu1 : UniqueIds (SendMessageToAll env msg db).db := by
      rw [sendMessageToAll_storageOk hok msg hu]
      exact uniqueIds_cycleTable env msg hu
    have h1 := cycle_fail_row hok msg hu hr hf h0 (by omega)
    have h := ih _ _ hu1 h1 (by simp only; omega) (by simp only; omega)
      (fun q hq => hp q (List.mem_cons_of_mem _ hq))
    simp only [runCycles, List.length_cons, Nat.cast_add, Nat.cast_one]
    have e : r.errcount + 1 + (rest.length : Int) = r.errcount + ((rest.length : Int) + 1) := by
      omega
    simp only [e] at h
    exact h

theorem runCycles_keeps (cycles : List (Env × String)) :
    ∀ (db : Table) (a : Row), UniqueIds db → a ∈ db → a.errcount ≤ 3 →
      (∀ p ∈ cycles, p.1.send a.id p.2 = true) → a ∈ runCycles cycles db := by
  induction cycles with
  | nil => intro db a _ ha _ _; exact ha
  | cons p rest ih =>
    intro db a hu ha hle hp
    obtain ⟨env, msg⟩ := p
    have hs : env.send a.id msg = true := hp (env, msg) (List.mem_cons_self _ _)
    obtain ⟨hm, hu1⟩ := row_kept_of_send_ok env msg hu ha hle hs
    simp only [runCycles]
    exact ih _ a hu1 hm hle (fun q hq => hp q (List.mem_cons_of_mem _ hq))

theorem runCycles_append (l1 l2 : List (Env × String)) :
    ∀ db : Table, runCycles (l1 ++ l2) db = runCycles l2 (runCycles l1 db) := by
  induction l1 with
  | nil => intro db; rfl
  | cons p rest ih =>
    intro db
    obtain ⟨env, msg⟩ := p
    simp only [List.cons_append, runCycles]
    exact ih _

/-- C1 (as stated) fails: "B" starts at 0 and fails in four cycles, every send to "A"
succeeds and no statement fails, yet "A", whose stored counter was 4, is not listed
after the four cycles. -/
theorem succeeding_recipient_evicted :
    UniqueIds staleTable ∧ "A" ∈ ids staleTable ∧
      GetErrorCount .none staleTable "B" = .ok 0 ∧
      (∀ p ∈ fourCycles, p.1.send "A" p.2 = true ∧ p.1.send "B" p.2 = false) ∧
      GetChatList .none (runCycles fourCycles staleTable) = .ok [] :=
  ⟨by decide, by decide, rfl, by decide, rfl⟩

/-- C1 (amended): on a table with unique ids holding recipient `b` with counter 0, let
four cycles run in which the send to `b` fails and no statement fails.  After cycle
`k` (`k` = 1, 2, 3) `b` is listed by `GetChatList` and `GetErrorCount(b)` is `k`; after
the fourth cycle `GetErrorCount(b)` fails with not-found, `b` is not listed, and every
recipient whose sends all succeeded and whose counter was at most 3 before the first
cycle is listed. -/
theorem four_failed_cycles_evict (cycles : List (Env × String)) (db : Table) (b : Row)
    (hu : UniqueIds db) (hb : b ∈ db) (h0 : b.errcount = 0) (hlen : cycles.length = 4)
    (hc : ∀ p ∈ cycles, p.1.storageOk ∧ p.1.send b.id p.2 = false) :
    (∀ k : Nat, 1 ≤ k → k ≤ 3 →
      (∃ l, GetChatList .none (runCycles (cycles.take k) db) = .ok l ∧ b.id ∈ l) ∧
        GetErrorCount .none (runCycles (cycles.take k) db) b.id = .ok (k : Int)) ∧
      GetErrorCount .none (runCycles cycles db) b.id = .error (.notFound b.id) ∧
      ∃ l, GetChatList .none (runCycles cycles db) = .ok l ∧ b.id ∉ l ∧
        ∀ a ∈ db, a.errcount ≤ 3 → (∀ p ∈ cycles, p.1.send a.id p.2 = true) → a.id ∈ l := by
  have hrow : ∀ k : Nat, k ≤ 3 →
      ({ b with errcount := (k : Int) } : Row) ∈ runCycles (cycles.take k) db ∧
        UniqueIds (runCycles (cycles.take k) db) := by
    intro k hk
    have hlk : (cycles.take k).length = k := by
      rw [List.length_take, hlen]; omega
    have hck : ∀ p ∈ cycles.take k, p.1.storageOk ∧ p.1.send b.id p.2 = false :=
      fun p hp => hc p (List.mem_of_mem_take hp)
    have h := runCycles_fail_row (cycles.take k) db b hu hb (by omega)
      (by rw [hlk]; omega) hck
    rw [hlk, h0, zero_add] at h
    exact ⟨h, runCycles_unique _ db hu (fun p hp => (hck p hp).1)⟩
  have hsplit : ∃ p4, cycles = cycles.take 3 ++ [p4] := by
    have hd : (cycles.drop 3).length = 1 := by rw [List.length_drop, hlen]
    obtain ⟨p4, hp4⟩ := List.length_eq_one.1 hd
    exact ⟨p4, by rw [← hp4, List.take_append_drop]⟩
  obtain ⟨p4, hp4⟩ := hsplit
  obtain ⟨env4, msg4⟩ := p4
  have hmem4 : (env4, msg4) ∈ cycles := by
    rw [hp4]; simp
  obtain ⟨hok4, hf4⟩ := hc _ hmem4
  obtain ⟨hrow3, hu3⟩ := hrow 3 (le_refl 3)
  have hlast : runCycles cycles db
      = (SendMessageToAll env4 msg4 (runCycles (cycles.take 3) db)).db := by
    conv_lhs => rw [hp4]
    rw [runCycles_append]
    rfl
  have hgone : b.id ∉ ids (runCycles cycles db) := by
    rw [hlast]
    exact @cycle_fail_evict env4 hok4 msg4 _ hu3 ⟨b.id, b.created, ((3 : Nat) : Int)⟩
      hrow3 hf4 rfl
  refine ⟨?_, ?_, ?_⟩
  · intro k _ hk3
    obtain ⟨hr, huk⟩ := hrow k hk3
    refine ⟨⟨_, getChatList_none _, mem_ids.2 ⟨_, hr, rfl⟩⟩, ?_⟩
    exact getErrorCount_of_mem huk hr
  · exact getErrorCount_of_not_mem hgone
  · refine ⟨_, getChatList_none _, hgone, ?_⟩
    intro a ha hle hs
    exact mem_ids.2 ⟨a, runCycles_keeps cycles db a hu ha hle hs, rfl⟩

theorem four_failed_cycles_evict_witness :
    UniqueIds freshTable ∧ (⟨"B", 2, 0⟩ : Row) ∈ freshTable ∧
      GetErrorCount .none (runCycles (fourCycles.take 3) freshTable) "B" = .ok 3 ∧
      GetErrorCount .none (runCycles fourCycles freshTable) "B" = .error (.notFound "B") ∧
      GetChatList .none (runCycles fourCycles freshTable) = .ok ["A"] :=
  ⟨by decide, by decide,
    ((four_failed_cycles_evict fourCycles freshTable ⟨"B", 2, 0⟩ (by decide) (by decide) rfl
      rfl (by
        intro p hp
        simp only [fourCycles, List.mem_replicate] at hp
        rw [hp.2]
        exact ⟨⟨rfl, rfl, fun _ => ⟨rfl, rfl, rfl⟩⟩, rfl⟩)).1 3 (by decide) (by decide)).2,
    rfl, rfl⟩

end Tbot
